import Mathlib

/-!
Verification of the Cortona desktop core (src/cortona-desktop/main.js):
shallow embeddings of the audio frame pipeline of
`startNativeWakeWordListening`, the filesystem agent watcher
(`startAgentWatcher`), the visual window watcher (`startWindowWatcher`),
the native wake-word / transcription start and stop functions, and the
availability IPC handlers, together with theorems settling the
specification's claims about them.
-/

namespace Cortona

/-!
### FrameBuffer

The accumulate-and-slice loop in the `'data'` handler of
`startNativeWakeWordListening` (main.js lines 751-787).  Raw 16-bit PCM
bytes are appended to `audioBuffer`; while at least
`bytesPerFrame = frameLength * 2` bytes are available, one frame of
`frameLength` bytes times two is sliced off the front and decoded into
`frameLength` signed 16-bit samples for `porcupineHandle.process`.
-/

/-- Little-endian signed 16-bit decoding of a byte sequence, as performed by
`new Int16Array(frameBuffer.buffer, frameBuffer.byteOffset, frameLength)`
on a sliced frame (main.js line 770).  Frame slices always hold an even
number of bytes, so the trailing lone-byte case is unreachable there. -/
def bytesToInt16 : List ℕ → List ℤ
  | lo :: hi :: rest =>
      (if lo + 256 * hi < 32768 then ((lo + 256 * hi : ℕ) : ℤ)
       else ((lo + 256 * hi : ℕ) : ℤ) - 65536) :: bytesToInt16 rest
  | _ => []

/-- The slicing loop `while (audioBuffer.length >= bytesPerFrame)`
(main.js lines 764-786): repeatedly remove `bpf` bytes from the front of
the buffer as one frame, returning the frames in arrival order together
with the residual buffer.  The source always runs this with
`bpf = frameLength * 2 > 0`; the `0 < bpf` conjunct makes the Lean
definition total. -/
def sliceFrames (bpf : ℕ) (buf : List ℕ) : List (List ℕ) × List ℕ :=
  if h : 0 < bpf ∧ bpf ≤ buf.length then
    let p := sliceFrames bpf (buf.drop bpf)
    (buf.take bpf :: p.1, p.2)
  else ([], buf)
termination_by buf.length
decreasing_by
  simp only [List.length_drop]
  omega

/-- One `'data'` event: concatenate the incoming chunk onto the residual
buffer (`audioBuffer = Buffer.concat([audioBuffer, data])`, line 761),
slice off the complete frames and decode each into samples. -/
def pushChunk (frameLength : ℕ) (residual chunk : List ℕ) :
    List (List ℤ) × List ℕ :=
  ((sliceFrames (frameLength * 2) (residual ++ chunk)).1.map bytesToInt16,
   (sliceFrames (frameLength * 2) (residual ++ chunk)).2)

/-- Feeding a sequence of chunks one `'data'` event at a time, accumulating
the frames emitted across calls and threading the residual buffer from one
call to the next. -/
def pushAll (frameLength : ℕ) (st : List (List ℤ) × List ℕ) :
    List (List ℕ) → List (List ℤ) × List ℕ
  | [] => st
  | c :: cs =>
      let p := pushChunk frameLength st.2 c
      pushAll frameLength (st.1 ++ p.1, p.2) cs

theorem sliceFrames_pos (bpf : ℕ) (buf : List ℕ)
    (h : 0 < bpf ∧ bpf ≤ buf.length) :
    sliceFrames bpf buf =
      (buf.take bpf :: (sliceFrames bpf (buf.drop bpf)).1,
       (sliceFrames bpf (buf.drop bpf)).2) := by
  rw [sliceFrames]
  simp [h]

theorem sliceFrames_neg (bpf : ℕ) (buf : List ℕ)
    (h : ¬ (0 < bpf ∧ bpf ≤ buf.length)) :
    sliceFrames bpf buf = ([], buf) := by
  rw [sliceFrames]
  simp [h]

/-- No byte is lost or duplicated: the emitted frames followed by the
residual reconstitute the input buffer. -/
theorem sliceFrames_flatten (bpf : ℕ) (buf : List ℕ) :
    (sliceFrames bpf buf).1.flatten ++ (sliceFrames bpf buf).2 = buf := by
  have main : ∀ (n : ℕ) (b : List ℕ), b.length ≤ n →
      (sliceFrames bpf b).1.flatten ++ (sliceFrames bpf b).2 = b := by
    intro n
    induction n with
    | zero =>
        intro b hb
        have h : ¬ (0 < bpf ∧ bpf ≤ b.length) := by omega
        rw [sliceFrames_neg bpf b h]
        simp
    | succ n ih =>
        intro b hb
        by_cases h : 0 < bpf ∧ bpf ≤ b.length
        · rw [sliceFrames_pos bpf b h]
          have hd : (b.drop bpf).length ≤ n := by
            simp only [List.length_drop]
            omega
          have hrec := ih (b.drop bpf) hd
          simp only [List.flatten_cons, List.append_assoc, hrec]
          exact List.take_append_drop bpf b
        · rw [sliceFrames_neg bpf b h]
          simp
  exact main buf.length buf le_rfl

/-- Every emitted frame holds exactly `bpf` bytes. -/
theorem sliceFrames_frame_length (bpf : ℕ) (buf : List ℕ) :
    ∀ f ∈ (sliceFrames bpf buf).1, f.length = bpf := by
  have main : ∀ (n : ℕ) (b : List ℕ), b.length ≤ n →
      ∀ f ∈ (sliceFrames bpf b).1, f.length = bpf := by
    intro n
    induction n with
    | zero =>
        intro b hb f hf
        have h : ¬ (0 < bpf ∧ bpf ≤ b.length) := by omega
        rw [sliceFrames_neg bpf b h] at hf
        simp at hf
    | succ n ih =>
        intro b hb f hf
        by_cases h : 0 < bpf ∧ bpf ≤ b.length
        · rw [sliceFrames_pos bpf b h] at hf
          simp only [List.mem_cons] at hf
          rcases hf with hf | hf
          · subst hf
            simp [List.length_take]
            omega
          · have hd : (b.drop bpf).length ≤ n := by
              simp only [List.length_drop]
              omega
            exact ih (b.drop bpf) hd f hf
        · rw [sliceFrames_neg bpf b h] at hf
          simp at hf
  exact main buf.length buf le_rfl

/-- The loop guard fails on the residual: it is always shorter than one
frame (or the degenerate `bpf = 0` case). -/
theorem sliceFrames_residual_guard (bpf : ℕ) (buf : List ℕ) :
    ¬ (0 < bpf ∧ bpf ≤ (sliceFrames bpf buf).2.length) := by
  have main : ∀ (n : ℕ) (b : List ℕ), b.length ≤ n →
      ¬ (0 < bpf ∧ bpf ≤ (sliceFrames bpf b).2.length) := by
    intro n
    induction n with
    | zero =>
        intro b hb
        have h : ¬ (0 < bpf ∧ bpf ≤ b.length) := by omega
        rw [sliceFrames_neg bpf b h]
        exact h
    | succ n ih =>
        intro b hb
        by_cases h : 0 < bpf ∧ bpf ≤ b.length
        · rw [sliceFrames_pos bpf b h]
          have hd : (b.drop bpf).length ≤ n := by
            simp only [List.length_drop]
            omega
          exact ih (b.drop bpf) hd
        · rw [sliceFrames_neg bpf b h]
          exact h
  exact main buf.length buf le_rfl

/-- Frame count and residual size: with a positive frame size the loop
emits `buf.length / bpf` frames and keeps `buf.length % bpf` bytes. -/
theorem sliceFrames_count (bpf : ℕ) (hbpf : 0 < bpf) (buf : List ℕ) :
    (sliceFrames bpf buf).1.length = buf.length / bpf ∧
    (sliceFrames bpf buf).2.length = buf.length % bpf := by
  have main : ∀ (n : ℕ) (b : List ℕ), b.length ≤ n →
      (sliceFrames bpf b).1.length = b.length / bpf ∧
      (sliceFrames bpf b).2.length = b.length % bpf := by
    intro n
    induction n with
    | zero =>
        intro b hb
        have h : ¬ (0 < bpf ∧ bpf ≤ b.length) := by omega
        rw [sliceFrames_neg bpf b h]
        have hlt : b.length < bpf := by omega
        constructor
        · simp [Nat.div_eq_of_lt hlt]
        · simp [Nat.mod_eq_of_lt hlt]
    | succ n ih =>
        intro b hb
        by_cases h : 0 < bpf ∧ bpf ≤ b.length
        · rw [sliceFrames_pos bpf b h]
          have hd : (b.drop bpf).length ≤ n := by
            simp only [List.length_drop]
            omega
          have hrec := ih (b.drop bpf) hd
          constructor
          · simp only [List.length_cons, hrec.1, List.length_drop]
            rw [Nat.div_eq_sub_div hbpf h.2]
          · simp only [hrec.2, List.length_drop]
            rw [Nat.mod_eq_sub_mod h.2]
        · rw [sliceFrames_neg bpf b h]
          have hlt : b.length < bpf := by omega
          constructor
          · simp [Nat.div_eq_of_lt hlt]
          · simp [Nat.mod_eq_of_lt hlt]
  exact main buf.length buf le_rfl

/-- Compositionality of the slicing loop: slicing `a ++ b` is slicing `a`
and then slicing its residual with `b` appended. -/
theorem sliceFrames_append (bpf : ℕ) (a b : List ℕ) :
    sliceFrames bpf (a ++ b) =
      ((sliceFrames bpf a).1 ++
         (sliceFrames bpf ((sliceFrames bpf a).2 ++ b)).1,
       (sliceFrames bpf ((sliceFrames bpf a).2 ++ b)).2) := by
  have main : ∀ (n : ℕ) (a : List ℕ), a.length ≤ n → ∀ b : List ℕ,
      sliceFrames bpf (a ++ b) =
        ((sliceFrames bpf a).1 ++
           (sliceFrames bpf ((sliceFrames bpf a).2 ++ b)).1,
         (sliceFrames bpf ((sliceFrames bpf a).2 ++ b)).2) := by
    intro n
    induction n with
    | zero =>
        intro a ha b
        have h : ¬ (0 < bpf ∧ bpf ≤ a.length) := by omega
        rw [sliceFrames_neg bpf a h]
        simp
    | succ n ih =>
        intro a ha b
        by_cases h : 0 < bpf ∧ bpf ≤ a.length
        · have hab : 0 < bpf ∧ bpf ≤ (a ++ b).length := by
            simp only [List.length_append]
            omega
          rw [sliceFrames_pos bpf (a ++ b) hab, sliceFrames_pos bpf a h]
          have htake : (a ++ b).take bpf = a.take bpf :=
            List.take_append_of_le_length h.2
          have hdrop : (a ++ b).drop bpf = a.drop bpf ++ b :=
            List.drop_append_of_le_length h.2
          have hd : (a.drop bpf).length ≤ n := by
            simp only [List.length_drop]
            omega
          rw [htake, hdrop, ih (a.drop bpf) hd b]
          simp
        · rw [sliceFrames_neg bpf a h]
          simp
  exact main a.length a le_rfl b

/-- Decoding a byte list yields one sample per byte pair. -/
theorem bytesToInt16_length : ∀ l : List ℕ, (bytesToInt16 l).length = l.length / 2
  | [] => by simp [bytesToInt16]
  | [_] => by simp [bytesToInt16]
  | lo :: hi :: rest => by
      have ih := bytesToInt16_length rest
      simp only [bytesToInt16, List.length_cons, ih]
      omega

/-- Running the accumulate-and-slice loop over a chunk list is the same as
one call on the flattened byte sequence, provided the residual the run
starts from is itself too short to contain a frame (as every residual the
loop ever produces is). -/
theorem pushAll_eq (fl : ℕ) (cs : List (List ℕ)) :
    ∀ (fs : List (List ℤ)) (r : List ℕ),
      ¬ (0 < fl * 2 ∧ fl * 2 ≤ r.length) →
      pushAll fl (fs, r) cs =
        (fs ++ (pushChunk fl r cs.flatten).1, (pushChunk fl r cs.flatten).2) := by
  induction cs with
  | nil =>
      intro fs r hr
      simp only [pushAll, pushChunk, List.flatten_nil, List.append_nil]
      rw [sliceFrames_neg _ _ hr]
      simp
  | cons c cs ih =>
      intro fs r hr
      have hg : ¬ (0 < fl * 2 ∧ fl * 2 ≤ (pushChunk fl r c).2.length) := by
        simpa [pushChunk] using sliceFrames_residual_guard (fl * 2) (r ++ c)
      simp only [pushAll]
      rw [ih (fs ++ (pushChunk fl r c).1) (pushChunk fl r c).2 hg]
      simp only [pushChunk, List.flatten_cons]
      rw [← List.append_assoc r c cs.flatten,
        sliceFrames_append (fl * 2) (r ++ c) cs.flatten]
      simp [List.map_append, List.append_assoc]

/-- Frame and residual counts of one `'data'` call. -/
theorem pushChunk_counts (fl : ℕ) (hfl : 0 < fl) (r c : List ℕ) :
    (pushChunk fl r c).1.length = (r.length + c.length) / (fl * 2) ∧
    (pushChunk fl r c).2.length = (r.length + c.length) % (fl * 2) := by
  have h := sliceFrames_count (fl * 2) (by omega) (r ++ c)
  refine ⟨?_, ?_⟩
  · simp only [pushChunk, List.length_map, h.1, List.length_append]
  · simp only [pushChunk, h.2, List.length_append]

/-- C1: feeding the audio byte stream to the accumulate-and-slice loop of
`startNativeWakeWordListening` in any chunk split produces, across all
calls, the same frames in the same order (and the same final residual) as
feeding the flattened sequence in one call; in particular with
`frameLength = 512` (1024 bytes per frame), pushing 1500 bytes then 1500
bytes yields one frame per call with residuals of 476 then 952 bytes, and
the two frames agree with the two frames of a single 3000-byte push, which
leaves the same 952-byte residual. -/
theorem frameBuffer_split_invariance :
    (∀ (fl : ℕ) (chunks : List (List ℕ)),
        pushAll fl ([], []) chunks = pushChunk fl [] chunks.flatten) ∧
    (∀ b1 b2 : List ℕ, b1.length = 1500 → b2.length = 1500 →
        (pushChunk 512 [] b1).1.length = 1 ∧
        (pushChunk 512 [] b1).2.length = 476 ∧
        (pushChunk 512 (pushChunk 512 [] b1).2 b2).1.length = 1 ∧
        (pushChunk 512 (pushChunk 512 [] b1).2 b2).2.length = 952 ∧
        (pushChunk 512 [] b1).1 ++ (pushChunk 512 (pushChunk 512 [] b1).2 b2).1
          = (pushChunk 512 [] (b1 ++ b2)).1 ∧
        (pushChunk 512 [] (b1 ++ b2)).1.length = 2 ∧
        (pushChunk 512 [] (b1 ++ b2)).2
          = (pushChunk 512 (pushChunk 512 [] b1).2 b2).2) := by
  constructor
  · intro fl chunks
    have h := pushAll_eq fl chunks [] [] (by simp; omega)
    simpa using h
  · intro b1 b2 hb1 hb2
    have hc1 := pushChunk_counts 512 (by norm_num) [] b1
    have hres1 : (pushChunk 512 [] b1).2.length = 476 := by
      rw [hc1.2]
      simp only [List.length_nil, hb1]
    have hc2 := pushChunk_counts 512 (by norm_num) (pushChunk 512 [] b1).2 b2
    have hc3 := pushChunk_counts 512 (by norm_num) [] (b1 ++ b2)
    have happ := sliceFrames_append (512 * 2) b1 b2
    refine ⟨?_, hres1, ?_, ?_, ?_, ?_, ?_⟩
    · rw [hc1.1]
      simp only [List.length_nil, hb1]
    · rw [hc2.1, hres1, hb2]
    · rw [hc2.2, hres1, hb2]
    · simp only [pushChunk, List.nil_append, happ, List.map_append]
    · rw [hc3.1]
      simp only [List.length_nil, List.length_append, hb1, hb2]
    · simp only [pushChunk, List.nil_append, happ]

/-- Witness for C1 at the scenario's concrete chunk sizes. -/
theorem frameBuffer_split_invariance_witness :
    (List.replicate 1500 0).length = 1500 ∧
    ((pushChunk 512 [] (List.replicate 1500 0)).1.length = 1 ∧
     (pushChunk 512 [] (List.replicate 1500 0)).2.length = 476 ∧
     (pushChunk 512 (pushChunk 512 [] (List.replicate 1500 0)).2
        (List.replicate 1500 0)).1.length = 1 ∧
     (pushChunk 512 (pushChunk 512 [] (List.replicate 1500 0)).2
        (List.replicate 1500 0)).2.length = 952 ∧
     (pushChunk 512 [] (List.replicate 1500 0)).1 ++
         (pushChunk 512 (pushChunk 512 [] (List.replicate 1500 0)).2
           (List.replicate 1500 0)).1
       = (pushChunk 512 [] (List.replicate 1500 0 ++ List.replicate 1500 0)).1 ∧
     (pushChunk 512 [] (List.replicate 1500 0 ++ List.replicate 1500 0)).1.length = 2 ∧
     (pushChunk 512 [] (List.replicate 1500 0 ++ List.replicate 1500 0)).2
       = (pushChunk 512 (pushChunk 512 [] (List.replicate 1500 0)).2
           (List.replicate 1500 0)).2) :=
  ⟨by rw [List.length_replicate],
   frameBuffer_split_invariance.2 (List.replicate 1500 0) (List.replicate 1500 0)
     (by rw [List.length_replicate]) (by rw [List.length_replicate])⟩

/-- C7: every frame the loop hands to `porcupineHandle.process` holds
exactly `frameLength` samples (`frameLength * 2` bytes), and the bytes not
emitted as frames — always fewer than one frame's worth — are exactly the
residual buffer that the next `'data'` event prepends to its chunk: the
emitted frames followed by the residual reconstitute the full input. -/
theorem frameBuffer_frames_exact (fl : ℕ) (hfl : 0 < fl)
    (residual chunk : List ℕ) :
    (∀ f ∈ (pushChunk fl residual chunk).1, f.length = fl) ∧
    (pushChunk fl residual chunk).2.length < fl * 2 ∧
    (sliceFrames (fl * 2) (residual ++ chunk)).1.flatten ++
        (pushChunk fl residual chunk).2 = residual ++ chunk := by
  refine ⟨?_, ?_, ?_⟩
  · intro f hf
    simp only [pushChunk, List.mem_map] at hf
    obtain ⟨g, hg, rfl⟩ := hf
    have hlen := sliceFrames_frame_length (fl * 2) (residual ++ chunk) g hg
    rw [bytesToInt16_length, hlen]
    omega
  · have h := pushChunk_counts fl hfl residual chunk
    rw [h.2]
    exact Nat.mod_lt _ (by omega)
  · simpa [pushChunk] using sliceFrames_flatten (fl * 2) (residual ++ chunk)

/-!
### Filesystem agent watcher

The `chokidar`-based watcher of `startAgentWatcher` (main.js lines
163-259).  Each `'change'` event (the `'add'` handler re-emits `'change'`,
line 246) records the changed relative path, sets `hasSeenActivity` and
`lastFileChange`, clears any pending `agentIdleTimer` and arms a fresh one
`idleThreshold` ms in the future; when a timer fires with
`hasSeenActivity && agentWatcherEnabled` it emits `agent-finished` with
the accumulated `changedFiles` and resets them.  The model abstracts the
changed path to an arbitrary type with decidable equality, takes change
events as `(time, path)` pairs in arrival order, and elides the
notification, `watchPath` and `duration` fields of the payload.
`agentWatcherEnabled` is set on the `'ready'` event before any change is
delivered, so runs start (and stay) enabled.  A pending timer that is due
no later than the next event fires before that event is handled, and a
timer still pending after the last event eventually fires.
-/

/-- Mutable watcher state: `hasSeenActivity`, `changedFiles`, the pending
`agentIdleTimer` as its absolute fire time, and `agentWatcherEnabled`. -/
structure AgentState (α : Type) where
  hasSeenActivity : Bool
  changedFiles : List α
  pendingAt : Option ℕ
  enabled : Bool
  deriving DecidableEq

/-- State right after the watcher's `'ready'` event. -/
def agentInit (α : Type) : AgentState α :=
  ⟨false, [], none, true⟩

/-- One `agent-finished` emission: fire time and the `changedFiles`
payload. -/
structure AgentFinished (α : Type) where
  time : ℕ
  changedFiles : List α
  deriving DecidableEq

/-- The `'change'` handler body (lines 199-241) for a change of path `p`
delivered at time `t`: record activity, deduplicate `p` into
`changedFiles`, clear the pending timer and arm a new one at
`t + idleThreshold`. -/
def agentOnChange {α : Type} [DecidableEq α] (T : ℕ) (st : AgentState α)
    (t : ℕ) (p : α) : AgentState α :=
  { hasSeenActivity := true
    changedFiles :=
      if p ∈ st.changedFiles then st.changedFiles else st.changedFiles ++ [p]
    pendingAt := some (t + T)
    enabled := st.enabled }

/-- The `setTimeout` callback (lines 216-240) firing at absolute time `x`:
when activity was seen and the watcher is enabled, emit `agent-finished`
with the accumulated files and reset `changedFiles` and
`hasSeenActivity`. -/
def agentTimerBody {α : Type} (st : AgentState α) (x : ℕ) :
    AgentState α × List (AgentFinished α) :=
  if st.hasSeenActivity && st.enabled then
    ({ st with hasSeenActivity := false, changedFiles := [], pendingAt := none },
     [⟨x, st.changedFiles⟩])
  else
    ({ st with pendingAt := none }, [])

/-- Execution of the watcher over a time-ordered list of change events,
collecting every `agent-finished` emission in order. -/
def agentRun {α : Type} [DecidableEq α] (T : ℕ) (st : AgentState α) :
    List (ℕ × α) → List (AgentFinished α)
  | [] =>
      match st.pendingAt with
      | some x => (agentTimerBody st x).2
      | none => []
  | (t, p) :: rest =>
      match st.pendingAt with
      | some x =>
          if x ≤ t then
            (agentTimerBody st x).2 ++
              agentRun T (agentOnChange T (agentTimerBody st x).1 t p) rest
          else
            agentRun T (agentOnChange T st t p) rest
      | none =>
          agentRun T (agentOnChange T st t p) rest

/-- Case analysis of the timer callback: either it emits the accumulated
files (activity seen, watcher enabled) or it emits nothing. -/
theorem agentTimerBody_cases {α : Type} (st : AgentState α) (x : ℕ) :
    (st.hasSeenActivity = true ∧ st.enabled = true ∧
      agentTimerBody st x =
        ({ st with
            hasSeenActivity := false
            changedFiles := []
            pendingAt := none },
         [⟨x, st.changedFiles⟩])) ∨
    agentTimerBody st x = ({ st with pendingAt := none }, []) := by
  by_cases h : st.hasSeenActivity && st.enabled
  · rcases (Bool.and_eq_true _ _).mp h with ⟨h1, h2⟩
    exact Or.inl ⟨h1, h2, by simp [agentTimerBody, h]⟩
  · exact Or.inr (by simp [agentTimerBody, h])

/-- Generalized form of C10: along any run, when `hasSeenActivity` implies
a nonempty `changedFiles` and the current files come from `src`, every
emission's payload is nonempty and drawn from `src` plus the event
paths. -/
theorem agentRun_files {α : Type} [DecidableEq α] (T : ℕ) :
    ∀ (events : List (ℕ × α)) (st : AgentState α) (src : List α),
      (st.hasSeenActivity = true → st.changedFiles ≠ []) →
      (∀ p ∈ st.changedFiles, p ∈ src) →
      ∀ e ∈ agentRun T st events,
        e.changedFiles ≠ [] ∧
        ∀ p ∈ e.changedFiles, p ∈ src ∨ p ∈ events.map Prod.snd := by
  intro events
  induction events with
  | nil =>
      intro st src hinv hsub e he
      cases hpend : st.pendingAt with
      | none => simp [agentRun, hpend] at he
      | some x =>
          simp only [agentRun, hpend] at he
          rcases agentTimerBody_cases st x with ⟨hseen, hen, heq⟩ | heq
          · rw [heq] at he
            simp only [List.mem_singleton] at he
            subst he
            exact ⟨hinv hseen, fun p hp => Or.inl (hsub p hp)⟩
          · rw [heq] at he
            simp at he
  | cons ev rest ih =>
      intro st src hinv hsub e he
      obtain ⟨t, p⟩ := ev
      have hstep : ∀ (st1 : AgentState α),
          (st1.hasSeenActivity = true → st1.changedFiles ≠ []) →
          (∀ q ∈ st1.changedFiles, q ∈ src) →
          e ∈ agentRun T (agentOnChange T st1 t p) rest →
          e.changedFiles ≠ [] ∧
          ∀ q ∈ e.changedFiles, q ∈ src ∨ q ∈ ((t, p) :: rest).map Prod.snd := by
        intro st1 hinv1 hsub1 he1
        have hinv2 : (agentOnChange T st1 t p).hasSeenActivity = true →
            (agentOnChange T st1 t p).changedFiles ≠ [] := by
          intro _
          simp only [agentOnChange]
          by_cases hmem : p ∈ st1.changedFiles
          · rw [if_pos hmem]
            intro hnil
            rw [hnil] at hmem
            simp at hmem
          · rw [if_neg hmem]
            simp
        have hsub2 : ∀ q ∈ (agentOnChange T st1 t p).changedFiles,
            q ∈ src ++ [p] := by
          intro q hq
          simp only [agentOnChange] at hq
          by_cases hmem : p ∈ st1.changedFiles
          · rw [if_pos hmem] at hq
            exact List.mem_append.mpr (Or.inl (hsub1 q hq))
          · rw [if_neg hmem] at hq
            rcases List.mem_append.mp hq with hq | hq
            · exact List.mem_append.mpr (Or.inl (hsub1 q hq))
            · exact List.mem_append.mpr (Or.inr hq)
        have h3 := ih (agentOnChange T st1 t p) (src ++ [p]) hinv2 hsub2 e he1
        refine ⟨h3.1, ?_⟩
        intro q hq
        rcases h3.2 q hq with hq1 | hq1
        · rcases List.mem_append.mp hq1 with hq2 | hq2
          · exact Or.inl hq2
          · simp only [List.mem_singleton] at hq2
            subst hq2
            simp
        · simp only [List.map_cons, List.mem_cons]
          exact Or.inr (Or.inr hq1)
      cases hpend : st.pendingAt with
      | none =>
          simp only [agentRun, hpend] at he
          exact hstep st hinv hsub he
      | some x =>
          simp only [agentRun, hpend] at he
          by_cases hle : x ≤ t
          · rw [if_pos hle] at he
            rcases List.mem_append.mp he with he1 | he1
            · rcases agentTimerBody_cases st x with ⟨hseen, hen, heq⟩ | heq
              · rw [heq] at he1
                simp only [List.mem_singleton] at he1
                subst he1
                exact ⟨hinv hseen, fun q hq => Or.inl (hsub q hq)⟩
              · rw [heq] at he1
                simp at he1
            · rcases agentTimerBody_cases st x with ⟨hseen, hen, heq⟩ | heq
              · rw [heq] at he1
                exact hstep _ (by intro h; simp at h)
                  (by intro q hq; simp at hq) he1
              · rw [heq] at he1
                exact hstep _ hinv hsub he1
          · rw [if_neg hle] at he
            exact hstep st hinv hsub he

/-- C10: an `agent-finished` event is emitted only after at least one
`change`/`add` event was recorded since the watcher started or since the
previous `agent-finished` (the `hasSeenActivity` guard), so the
`changedFiles` payload carried by every `agent-finished` emission is
nonempty, and every path in it comes from an observed change event. -/
theorem agentFinished_nonempty (T : ℕ) (events : List (ℕ × ℕ)) :
    ∀ e ∈ agentRun T (agentInit ℕ) events,
      e.changedFiles ≠ [] ∧ ∀ p ∈ e.changedFiles, p ∈ events.map Prod.snd := by
  intro e he
  have h := agentRun_files T events (agentInit ℕ) []
    (by simp [agentInit]) (by simp [agentInit]) e he
  refine ⟨h.1, ?_⟩
  intro p hp
  rcases h.2 p hp with hq | hq
  · simp at hq
  · exact hq

/-- Witness for C10 on a one-event run. -/
theorem agentFinished_nonempty_witness :
    (⟨3, [0]⟩ : AgentFinished ℕ) ∈ agentRun 3 (agentInit ℕ) [(0, 0)] ∧
    ((⟨3, [0]⟩ : AgentFinished ℕ).changedFiles ≠ [] ∧
      ∀ p ∈ (⟨3, [0]⟩ : AgentFinished ℕ).changedFiles,
        p ∈ ([(0, 0)] : List (ℕ × ℕ)).map Prod.snd) :=
  ⟨by decide, agentFinished_nonempty 3 [(0, 0)] ⟨3, [0]⟩ (by decide)⟩

/-- Emission-time lower bound: if the pending timer (if any) fires no
earlier than `b` and every future change would arm a timer no earlier than
`b`, every emission of the run is at time `b` or later. -/
theorem agentRun_time_lb {α : Type} [DecidableEq α] (T : ℕ) :
    ∀ (events : List (ℕ × α)) (st : AgentState α) (b : ℕ),
      (∀ x, st.pendingAt = some x → b ≤ x) →
      (∀ u ∈ events.map Prod.fst, b ≤ u + T) →
      ∀ e ∈ agentRun T st events, b ≤ e.time := by
  intro events
  induction events with
  | nil =>
      intro st b hpend hev e he
      cases hx : st.pendingAt with
      | none => simp [agentRun, hx] at he
      | some x =>
          simp only [agentRun, hx] at he
          rcases agentTimerBody_cases st x with ⟨h1, h2, heq⟩ | heq
          · rw [heq] at he
            simp only [List.mem_singleton] at he
            subst he
            exact hpend x hx
          · rw [heq] at he
            simp at he
  | cons ev rest ih =>
      intro st b hpend hev e he
      obtain ⟨t0, p0⟩ := ev
      have hev2 : ∀ u ∈ rest.map Prod.fst, b ≤ u + T := by
        intro u hu
        exact hev u (by simp [hu])
      have hchange : ∀ st1 : AgentState α,
          e ∈ agentRun T (agentOnChange T st1 t0 p0) rest → b ≤ e.time := by
        intro st1 he1
        refine ih (agentOnChange T st1 t0 p0) b ?_ hev2 e he1
        intro x hx
        have hx2 : x = t0 + T := (Option.some.inj hx).symm
        rw [hx2]
        exact hev t0 (by simp)
      cases hx : st.pendingAt with
      | none =>
          simp only [agentRun, hx] at he
          exact hchange st he
      | some x =>
          simp only [agentRun, hx] at he
          by_cases hle : x ≤ t0
          · rw [if_pos hle] at he
            rcases List.mem_append.mp he with he1 | he1
            · rcases agentTimerBody_cases st x with ⟨h1, h2, heq⟩ | heq
              · rw [heq] at he1
                simp only [List.mem_singleton] at he1
                subst he1
                exact hpend x hx
              · rw [heq] at he1
                simp at he1
            · exact hchange _ he1
          · rw [if_neg hle] at he
            exact hchange st he

/-- Soundness of emissions: every `agent-finished` fires exactly
`idleThreshold` after some change, with no other change strictly inside
that idle window.  `past` carries the times of already-handled changes. -/
theorem agentRun_sound {α : Type} [DecidableEq α] (T : ℕ) :
    ∀ (events : List (ℕ × α)) (st : AgentState α) (past : List ℕ),
      (events.map Prod.fst).Pairwise (· < ·) →
      (∀ q ∈ past, ∀ u ∈ events.map Prod.fst, q < u) →
      (∀ x, st.pendingAt = some x →
        ∃ t ∈ past, x = t + T ∧ ∀ q ∈ past, q ≤ t) →
      ∀ e ∈ agentRun T st events,
        ∃ t ∈ past ++ events.map Prod.fst, e.time = t + T ∧
          ∀ u ∈ past ++ events.map Prod.fst, ¬ (t < u ∧ u < e.time) := by
  intro events
  induction events with
  | nil =>
      intro st past hsort hpast hpend e he
      cases hx : st.pendingAt with
      | none => simp [agentRun, hx] at he
      | some x =>
          simp only [agentRun, hx] at he
          rcases agentTimerBody_cases st x with ⟨h1, h2, heq⟩ | heq
          · rw [heq] at he
            simp only [List.mem_singleton] at he
            subst he
            obtain ⟨t, ht, hxt, hmax⟩ := hpend x hx
            refine ⟨t, by simpa using ht, hxt, ?_⟩
            intro u hu hcon
            simp only [List.map_nil, List.append_nil] at hu
            exact absurd hcon.1 (not_lt.mpr (hmax u hu))
          · rw [heq] at he
            simp at he
  | cons ev rest ih =>
      intro st past hsort hpast hpend e he
      obtain ⟨t0, p0⟩ := ev
      simp only [List.map_cons] at hsort hpast ⊢
      have hsort2 : (rest.map Prod.fst).Pairwise (· < ·) :=
        (List.pairwise_cons.mp hsort).2
      have ht0rest : ∀ u ∈ rest.map Prod.fst, t0 < u :=
        (List.pairwise_cons.mp hsort).1
      have hpast2 : ∀ q ∈ past ++ [t0], ∀ u ∈ rest.map Prod.fst, q < u := by
        intro q hq u hu
        rcases List.mem_append.mp hq with hq1 | hq1
        · exact hpast q hq1 u (by simp [hu])
        · simp only [List.mem_singleton] at hq1
          subst hq1
          exact ht0rest u hu
      have hshape : (past ++ [t0]) ++ rest.map Prod.fst
          = past ++ t0 :: rest.map Prod.fst := by
        simp
      have hchange : ∀ st1 : AgentState α,
          e ∈ agentRun T (agentOnChange T st1 t0 p0) rest →
          ∃ t ∈ past ++ t0 :: rest.map Prod.fst, e.time = t + T ∧
            ∀ u ∈ past ++ t0 :: rest.map Prod.fst, ¬ (t < u ∧ u < e.time) := by
        intro st1 he1
        have hpendNew : ∀ x, (agentOnChange T st1 t0 p0).pendingAt = some x →
            ∃ t ∈ past ++ [t0], x = t + T ∧ ∀ q ∈ past ++ [t0], q ≤ t := by
          intro x hx
          have hx2 : x = t0 + T := (Option.some.inj hx).symm
          refine ⟨t0, by simp, hx2, ?_⟩
          intro q hq
          rcases List.mem_append.mp hq with hq1 | hq1
          · exact le_of_lt (hpast q hq1 t0 (by simp))
          · simp only [List.mem_singleton] at hq1
            subst hq1
            exact le_rfl
        have h3 := ih (agentOnChange T st1 t0 p0) (past ++ [t0])
          hsort2 hpast2 hpendNew e he1
        rw [hshape] at h3
        exact h3
      cases hx : st.pendingAt with
      | none =>
          simp only [agentRun, hx] at he
          exact hchange st he
      | some x =>
          simp only [agentRun, hx] at he
          by_cases hle : x ≤ t0
          · rw [if_pos hle] at he
            rcases List.mem_append.mp he with he1 | he1
            · rcases agentTimerBody_cases st x with ⟨h1, h2, heq⟩ | heq
              · rw [heq] at he1
                simp only [List.mem_singleton] at he1
                subst he1
                obtain ⟨t, ht, hxt, hmax⟩ := hpend x hx
                refine ⟨t, List.mem_append.mpr (Or.inl ht), hxt, ?_⟩
                intro u hu hcon
                rcases List.mem_append.mp hu with hu1 | hu1
                · exact absurd hcon.1 (not_lt.mpr (hmax u hu1))
                · rcases List.mem_cons.mp hu1 with hu2 | hu2
                  · subst hu2
                    exact absurd hcon.2 (not_lt.mpr hle)
                  · have : t0 < u := ht0rest u hu2
                    exact absurd hcon.2 (not_lt.mpr (le_trans hle (le_of_lt this)))
              · rw [heq] at he1
                simp at he1
            · exact hchange _ he1
          · rw [if_neg hle] at he
            exact hchange st he

/-- Idle windows of successive emissions are disjoint: each later
emission fires at least `idleThreshold` after any earlier one. -/
theorem agentRun_disjoint {α : Type} [DecidableEq α] (T : ℕ) :
    ∀ (events : List (ℕ × α)) (st : AgentState α),
      (events.map Prod.fst).Pairwise (· < ·) →
      ((agentRun T st events).map AgentFinished.time).Pairwise
        (fun a b => a + T ≤ b) := by
  intro events
  induction events with
  | nil =>
      intro st _
      cases hx : st.pendingAt with
      | none => simp [agentRun, hx]
      | some x =>
          simp only [agentRun, hx]
          rcases agentTimerBody_cases st x with ⟨h1, h2, heq⟩ | heq
          · rw [heq]
            simp
          · rw [heq]
            simp
  | cons ev rest ih =>
      intro st hsort
      obtain ⟨t0, p0⟩ := ev
      simp only [List.map_cons] at hsort
      have hsort2 : (rest.map Prod.fst).Pairwise (· < ·) :=
        (List.pairwise_cons.mp hsort).2
      have ht0rest : ∀ u ∈ rest.map Prod.fst, t0 < u :=
        (List.pairwise_cons.mp hsort).1
      cases hx : st.pendingAt with
      | none =>
          simp only [agentRun, hx]
          exact ih _ hsort2
      | some x =>
          simp only [agentRun, hx]
          by_cases hle : x ≤ t0
          · rw [if_pos hle]
            rcases agentTimerBody_cases st x with ⟨h1, h2, heq⟩ | heq
            · rw [heq]
              simp only [List.map_append, List.map_cons, List.map_nil,
                List.singleton_append]
              rw [List.pairwise_cons]
              refine ⟨?_, ih _ hsort2⟩
              intro b hb
              simp only [List.mem_map] at hb
              obtain ⟨e, he, rfl⟩ := hb
              refine agentRun_time_lb T rest _ (x + T) ?_ ?_ e he
              · intro y hy
                have hy2 : y = t0 + T := (Option.some.inj hy).symm
                rw [hy2]
                exact Nat.add_le_add_right hle T
              · intro u hu
                have : t0 < u := ht0rest u hu
                exact Nat.add_le_add_right (le_trans hle (le_of_lt this)) T
            · rw [heq]
              simp only [List.nil_append]
              exact ih _ hsort2
          · rw [if_neg hle]
            exact ih _ hsort2

/-!
### Visual window watcher

The polling loop of `startWindowWatcher` (main.js lines 505-657).  Every
`captureInterval` ms a tick recaptures the watched window region and
hashes it (`captureWindowHash`); if `currentInfo` is `null` the tick
returns early; otherwise `hasHashChanged = currentHash && currentHash !==
lastWindowHash` decides between the activity branch (update
`lastWindowHash`, set `lastWindowActivity`, clear `windowIdleTimer`, send
`window-activity`) and the idle branch, which arms a 2000 ms confirmation
`setTimeout` once `idleThreshold` ms have passed since
`lastWindowActivity` and no timer is pending; the timer callback
re-checks the idle time and sends `window-agent-finished` with the final
idle time.  The model abstracts the hash to an arbitrary type with
decidable equality and takes ticks as `(time, observation)` pairs in time
order; a pending timer due no later than a tick fires before that tick,
and a timer still pending after the last tick eventually fires.  The
`app`/`title` payload fields, the notification, and the renderer handle
are elided; note the `window-agent-finished` payload carries no record of
the observed changes.
-/

/-- A poll tick's observation: the window was gone (`currentInfo` null,
tick skipped), or a capture result — `none` when `captureWindowHash`
failed (hash `null`), `some v` for a successful hash. -/
inductive TickObs (α : Type) where
  | windowGone
  | captured (h : Option α)
  deriving DecidableEq

/-- Watcher state: `windowWatcherEnabled`, `lastWindowHash`,
`lastWindowActivity` and the pending `windowIdleTimer` as its absolute
fire time. -/
structure WindowState (α : Type) where
  enabled : Bool
  lastHash : Option α
  lastActivity : ℕ
  idleTimer : Option ℕ
  deriving DecidableEq

/-- State right after a successful `startWindowWatcher` at time `t0` with
baseline hash `h0` (`null` when the initial capture failed). -/
def windowInit (α : Type) (h0 : Option α) (t0 : ℕ) : WindowState α :=
  ⟨true, h0, t0, none⟩

/-- An event sent to the renderer: `window-activity` at a tick time, or
`window-agent-finished` with the final idle duration. -/
inductive WindowEvent where
  | activity (t : ℕ)
  | finished (t : ℕ) (idleTime : ℕ)
  deriving DecidableEq

def isActivity : WindowEvent → Bool
  | .activity _ => true
  | .finished _ _ => false

def isFinished : WindowEvent → Bool
  | .activity _ => false
  | .finished _ _ => true

def eventTime : WindowEvent → ℕ
  | .activity t => t
  | .finished t _ => t

def activityTimes (l : List WindowEvent) : List ℕ :=
  (l.filter isActivity).map eventTime

def finishedTimes (l : List WindowEvent) : List ℕ :=
  (l.filter isFinished).map eventTime

/-- One body of the `setInterval` callback (lines 551-618) at time `now`,
minus the timer-arming side effect's later firing, which `windowRun`
schedules. -/
def windowTick {α : Type} [DecidableEq α] (T : ℕ) (st : WindowState α)
    (now : ℕ) (obs : TickObs α) : WindowState α × List WindowEvent :=
  if st.enabled = false then (st, [])
  else
    match obs with
    | .windowGone => (st, [])
    | .captured h =>
        if h.isSome = true ∧ h ≠ st.lastHash then
          ({ st with lastHash := h, lastActivity := now, idleTimer := none },
           [.activity now])
        else
          if T ≤ now - st.lastActivity ∧ st.idleTimer = none then
            ({ st with idleTimer := some (now + 2000) }, [])
          else (st, [])

/-- The confirmation `setTimeout` callback (lines 593-615) firing at
absolute time `f`: re-check the idle time and emit
`window-agent-finished`; either way the timer slot is cleared. -/
def windowTimerFire {α : Type} (T : ℕ) (st : WindowState α) (f : ℕ) :
    WindowState α × List WindowEvent :=
  if T ≤ f - st.lastActivity then
    ({ st with idleTimer := none }, [.finished f (f - st.lastActivity)])
  else ({ st with idleTimer := none }, [])

/-- Execution of the watcher over a time-ordered list of poll ticks,
collecting the renderer events in order. -/
def windowRun {α : Type} [DecidableEq α] (T : ℕ) (st : WindowState α) :
    List (ℕ × TickObs α) → List WindowEvent
  | [] =>
      match st.idleTimer with
      | some f => (windowTimerFire T st f).2
      | none => []
  | (t, obs) :: rest =>
      match st.idleTimer with
      | some f =>
          if f ≤ t then
            (windowTimerFire T st f).2 ++
              ((windowTick T (windowTimerFire T st f).1 t obs).2 ++
                windowRun T (windowTick T (windowTimerFire T st f).1 t obs).1 rest)
          else
            (windowTick T st t obs).2 ++
              windowRun T (windowTick T st t obs).1 rest
      | none =>
          (windowTick T st t obs).2 ++
            windowRun T (windowTick T st t obs).1 rest

/-- Case analysis of one poll tick: skip (state unchanged, no event), arm
the confirmation timer, or the activity branch. -/
theorem windowTick_cases {α : Type} [DecidableEq α] (T : ℕ)
    (st : WindowState α) (now : ℕ) (obs : TickObs α) :
    windowTick T st now obs = (st, []) ∨
    windowTick T st now obs = ({ st with idleTimer := some (now + 2000) }, []) ∨
    ∃ h, windowTick T st now obs =
      ({ st with lastHash := h, lastActivity := now, idleTimer := none },
       [WindowEvent.activity now]) := by
  by_cases hen : st.enabled = false
  · simp only [windowTick, if_pos hen]
    exact Or.inl (by simp)
  · cases obs with
    | windowGone =>
        simp only [windowTick, if_neg hen]
        exact Or.inl (by simp)
    | captured h =>
        by_cases hch : h.isSome = true ∧ h ≠ st.lastHash
        · simp only [windowTick, if_neg hen, if_pos hch]
          exact Or.inr (Or.inr ⟨h, by simp⟩)
        · by_cases harm : T ≤ now - st.lastActivity ∧ st.idleTimer = none
          · simp only [windowTick, if_neg hen, if_neg hch, if_pos harm]
            exact Or.inr (Or.inl (by simp))
          · simp only [windowTick, if_neg hen, if_neg hch, if_neg harm]
            exact Or.inl (by simp)

/-- Case analysis of the confirmation timer firing. -/
theorem windowTimerFire_cases {α : Type} (T : ℕ) (st : WindowState α)
    (f : ℕ) :
    windowTimerFire T st f =
      ({ st with idleTimer := none },
       [WindowEvent.finished f (f - st.lastActivity)]) ∨
    windowTimerFire T st f = ({ st with idleTimer := none }, []) := by
  unfold windowTimerFire
  by_cases h : T ≤ f - st.lastActivity
  · rw [if_pos h]
    exact Or.inl rfl
  · rw [if_neg h]
    exact Or.inr rfl

theorem activityTimes_append (l1 l2 : List WindowEvent) :
    activityTimes (l1 ++ l2) = activityTimes l1 ++ activityTimes l2 := by
  simp [activityTimes, List.filter_append]

theorem finishedTimes_append (l1 l2 : List WindowEvent) :
    finishedTimes (l1 ++ l2) = finishedTimes l1 ++ finishedTimes l2 := by
  simp [finishedTimes, List.filter_append]

/-- A tick whose successful capture equals the stored baseline emits
nothing and keeps the baseline. -/
theorem windowTick_unchanged {α : Type} [DecidableEq α] (T : ℕ)
    (st : WindowState α) (now : ℕ) (v : α) (hh : st.lastHash = some v) :
    (windowTick T st now (TickObs.captured (some v))).2 = [] ∧
    (windowTick T st now (TickObs.captured (some v))).1.lastHash = some v := by
  have hch : ¬ ((some v : Option α).isSome = true ∧
      (some v : Option α) ≠ st.lastHash) := by
    rw [hh]
    simp
  by_cases hen : st.enabled = false
  · simp only [windowTick, if_pos hen]
    exact ⟨by simp, hh⟩
  · by_cases harm : T ≤ now - st.lastActivity ∧ st.idleTimer = none
    · simp only [windowTick, if_neg hen, if_neg hch, if_pos harm]
      exact ⟨by simp, hh⟩
    · simp only [windowTick, if_neg hen, if_neg hch, if_neg harm]
      exact ⟨by simp, hh⟩

/-- Repeated polls of an unchanged region never emit `window-activity`. -/
theorem windowRun_unchanged_no_activity {α : Type} [DecidableEq α]
    (T : ℕ) (v : α) :
    ∀ (ticks : List (ℕ × TickObs α)) (st : WindowState α),
      st.lastHash = some v →
      (∀ q ∈ ticks, Prod.snd q = TickObs.captured (some v)) →
      activityTimes (windowRun T st ticks) = [] := by
  intro ticks
  induction ticks with
  | nil =>
      intro st hh _
      cases hx : st.idleTimer with
      | none => simp [windowRun, hx, activityTimes]
      | some f =>
          simp only [windowRun, hx]
          rcases windowTimerFire_cases T st f with heq | heq
          · rw [heq]
            simp [activityTimes, isActivity]
          · rw [heq]
            simp [activityTimes]
  | cons q rest ih =>
      intro st hh hobs
      obtain ⟨t, obs⟩ := q
      have hobs0 : obs = TickObs.captured (some v) := hobs (t, obs) (by simp)
      subst hobs0
      have hobs2 : ∀ q ∈ rest, Prod.snd q = TickObs.captured (some v) := by
        intro q hq
        exact hobs q (by simp [hq])
      cases hx : st.idleTimer with
      | none =>
          simp only [windowRun, hx]
          have htick := windowTick_unchanged T st t v hh
          rw [activityTimes_append, htick.1]
          simp only [activityTimes, List.filter_nil, List.map_nil,
            List.nil_append]
          exact ih _ htick.2 hobs2
      | some f =>
          simp only [windowRun, hx]
          by_cases hle : f ≤ t
          · rw [if_pos hle]
            have hfh : (windowTimerFire T st f).1.lastHash = some v := by
              rcases windowTimerFire_cases T st f with heq | heq
              · rw [heq]
                exact hh
              · rw [heq]
                exact hh
            have hfev : activityTimes (windowTimerFire T st f).2 = [] := by
              rcases windowTimerFire_cases T st f with heq | heq
              · rw [heq]
                simp [activityTimes, isActivity]
              · rw [heq]
                simp [activityTimes]
            have htick := windowTick_unchanged T (windowTimerFire T st f).1 t v hfh
            rw [activityTimes_append, activityTimes_append, hfev, htick.1]
            simp only [activityTimes, List.filter_nil, List.map_nil,
              List.nil_append]
            exact ih _ htick.2 hobs2
          · rw [if_neg hle]
            have htick := windowTick_unchanged T st t v hh
            rw [activityTimes_append, htick.1]
            simp only [activityTimes, List.filter_nil, List.map_nil,
              List.nil_append]
            exact ih _ htick.2 hobs2

/-- C6: on every poll tick of the running window watcher whose capture
succeeds, a `window-activity` (change) event is emitted if and only if the
newly computed fingerprint differs from the stored baseline
`lastWindowHash`; on a change the baseline is updated to the new
fingerprint (and the timer cleared), on no change the tick emits nothing
and keeps the baseline; repeated polls of an unchanged region emit no
change event across the whole run. -/
theorem windowWatcher_change_iff {α : Type} [DecidableEq α] (T : ℕ)
    (st : WindowState α) (now : ℕ) (v : α) (hen : st.enabled = true) :
    ((windowTick T st now (TickObs.captured (some v))).2.any isActivity = true
        ↔ some v ≠ st.lastHash) ∧
    (some v ≠ st.lastHash →
      windowTick T st now (TickObs.captured (some v)) =
        ({ st with lastHash := some v, lastActivity := now, idleTimer := none },
         [WindowEvent.activity now])) ∧
    (some v = st.lastHash →
      (windowTick T st now (TickObs.captured (some v))).2 = [] ∧
      (windowTick T st now (TickObs.captured (some v))).1.lastHash
        = st.lastHash) ∧
    (∀ ticks : List (ℕ × TickObs α), st.lastHash = some v →
      (∀ q ∈ ticks, Prod.snd q = TickObs.captured (some v)) →
      activityTimes (windowRun T st ticks) = []) := by
  have henF : ¬ st.enabled = false := by
    rw [hen]
    simp
  have hchange : some v ≠ st.lastHash →
      windowTick T st now (TickObs.captured (some v)) =
        ({ st with lastHash := some v, lastActivity := now, idleTimer := none },
         [WindowEvent.activity now]) := by
    intro hne
    have hch : ((some v : Option α).isSome = true ∧
        (some v : Option α) ≠ st.lastHash) := ⟨rfl, hne⟩
    simp only [windowTick, if_neg henF, if_pos hch]
  refine ⟨?_, hchange, ?_, ?_⟩
  · constructor
    · intro hany
      intro heq
      have h3 := windowTick_unchanged T st now v heq.symm
      rw [h3.1] at hany
      simp at hany
    · intro hne
      rw [hchange hne]
      simp [isActivity]
  · intro heq
    have h3 := windowTick_unchanged T st now v heq.symm
    rw [← heq]
    exact h3
  · intro ticks hh hobs
    exact windowRun_unchanged_no_activity T v ticks st hh hobs

/-- Witness for C6 with a changed fingerprint and a three-tick unchanged
run. -/
theorem windowWatcher_change_iff_witness :
    (((windowTick 3000 (windowInit ℕ (some 5) 0) 500
          (TickObs.captured (some 7))).2.any isActivity = true
        ↔ some 7 ≠ (windowInit ℕ (some 5) 0).lastHash) ∧
     (some 7 ≠ (windowInit ℕ (some 5) 0).lastHash →
       windowTick 3000 (windowInit ℕ (some 5) 0) 500
           (TickObs.captured (some 7)) =
         ({ windowInit ℕ (some 5) 0 with
             lastHash := some 7
             lastActivity := 500
             idleTimer := none },
          [WindowEvent.activity 500])) ∧
     (some 7 = (windowInit ℕ (some 5) 0).lastHash →
       (windowTick 3000 (windowInit ℕ (some 5) 0) 500
           (TickObs.captured (some 7))).2 = [] ∧
       (windowTick 3000 (windowInit ℕ (some 5) 0) 500
           (TickObs.captured (some 7))).1.lastHash
         = (windowInit ℕ (some 5) 0).lastHash) ∧
     (∀ ticks : List (ℕ × TickObs ℕ),
       (windowInit ℕ (some 5) 0).lastHash = some 7 →
       (∀ q ∈ ticks, Prod.snd q = TickObs.captured (some 7)) →
       activityTimes (windowRun 3000 (windowInit ℕ (some 5) 0) ticks) = [])) :=
  windowWatcher_change_iff 3000 (windowInit ℕ (some 5) 0) 500 7 rfl

theorem windowTimerFire_no_activity {α : Type} (T : ℕ) (st : WindowState α)
    (f : ℕ) : activityTimes (windowTimerFire T st f).2 = [] := by
  rcases windowTimerFire_cases T st f with heq | heq <;> rw [heq] <;>
    simp [activityTimes, isActivity]

theorem windowTimerFire_finishedTimes {α : Type} (T : ℕ)
    (st : WindowState α) (f : ℕ) :
    finishedTimes (windowTimerFire T st f).2 = [f] ∨
    finishedTimes (windowTimerFire T st f).2 = [] := by
  rcases windowTimerFire_cases T st f with heq | heq <;> rw [heq]
  · left
    simp [finishedTimes, isFinished, eventTime]
  · right
    simp [finishedTimes]

theorem windowTimerFire_idleTimer {α : Type} (T : ℕ) (st : WindowState α)
    (f : ℕ) : (windowTimerFire T st f).1.idleTimer = none := by
  rcases windowTimerFire_cases T st f with heq | heq <;> rw [heq]

theorem windowTick_no_finished {α : Type} [DecidableEq α] (T : ℕ)
    (st : WindowState α) (t : ℕ) (obs : TickObs α) :
    finishedTimes (windowTick T st t obs).2 = [] := by
  rcases windowTick_cases T st t obs with heq | heq | ⟨h0, heq⟩ <;> rw [heq] <;>
    simp [finishedTimes, isFinished]

theorem windowTick_activityTimes {α : Type} [DecidableEq α] (T : ℕ)
    (st : WindowState α) (t : ℕ) (obs : TickObs α) :
    activityTimes (windowTick T st t obs).2 = [] ∨
    (activityTimes (windowTick T st t obs).2 = [t] ∧
      (windowTick T st t obs).1.idleTimer = none) := by
  rcases windowTick_cases T st t obs with heq | heq | ⟨h0, heq⟩ <;> rw [heq]
  · left
    simp [activityTimes]
  · left
    simp [activityTimes]
  · right
    exact ⟨by simp [activityTimes, isActivity, eventTime], rfl⟩

theorem windowTick_idleTimer {α : Type} [DecidableEq α] (T : ℕ)
    (st : WindowState α) (t : ℕ) (obs : TickObs α) :
    (windowTick T st t obs).1.idleTimer = st.idleTimer ∨
    (windowTick T st t obs).1.idleTimer = some (t + 2000) ∨
    (windowTick T st t obs).1.idleTimer = none := by
  rcases windowTick_cases T st t obs with heq | heq | ⟨h0, heq⟩ <;> rw [heq]
  · left
    rfl
  · right
    left
    rfl
  · right
    right
    rfl

/-- Every `window-activity` emission happens at one of the tick times, so
it is bounded below by any bound on them. -/
theorem windowRun_activity_lb {α : Type} [DecidableEq α] (T : ℕ) :
    ∀ (ticks : List (ℕ × TickObs α)) (st : WindowState α) (b : ℕ),
      (∀ u ∈ ticks.map Prod.fst, b ≤ u) →
      ∀ a ∈ activityTimes (windowRun T st ticks), b ≤ a := by
  intro ticks
  induction ticks with
  | nil =>
      intro st b _ a ha
      cases hx : st.idleTimer with
      | none => simp [windowRun, hx, activityTimes] at ha
      | some f =>
          simp only [windowRun, hx] at ha
          rw [windowTimerFire_no_activity] at ha
          simp at ha
  | cons q rest ih =>
      intro st b hb a ha
      obtain ⟨t, obs⟩ := q
      have hbt : b ≤ t := hb t (by simp)
      have hbrest : ∀ u ∈ rest.map Prod.fst, b ≤ u := by
        intro u hu
        exact hb u (by simp [hu])
      have hseg : ∀ st1 : WindowState α,
          a ∈ activityTimes ((windowTick T st1 t obs).2 ++
            windowRun T (windowTick T st1 t obs).1 rest) → b ≤ a := by
        intro st1 hmem
        rw [activityTimes_append] at hmem
        rcases List.mem_append.mp hmem with h1 | h1
        · rcases windowTick_activityTimes T st1 t obs with heq | ⟨heq, _⟩ <;>
            rw [heq] at h1
          · simp at h1
          · simp only [List.mem_singleton] at h1
            subst h1
            exact hbt
        · exact ih _ b hbrest a h1
      cases hx : st.idleTimer with
      | none =>
          simp only [windowRun, hx] at ha
          exact hseg st ha
      | some f =>
          simp only [windowRun, hx] at ha
          by_cases hle : f ≤ t
          · rw [if_pos hle] at ha
            rw [activityTimes_append, windowTimerFire_no_activity] at ha
            simp only [List.nil_append] at ha
            exact hseg _ ha
          · rw [if_neg hle] at ha
            exact hseg st ha

/-- Lower bound on `window-agent-finished` emissions: if the pending timer
(if any) fires at `b` or later and every tick could only arm a timer
firing at `b` or later, every finished emission is at `b` or later. -/
theorem windowRun_finished_lb {α : Type} [DecidableEq α] (T : ℕ) :
    ∀ (ticks : List (ℕ × TickObs α)) (st : WindowState α) (b : ℕ),
      (∀ x, st.idleTimer = some x → b ≤ x) →
      (∀ u ∈ ticks.map Prod.fst, b ≤ u + 2000) →
      ∀ f ∈ finishedTimes (windowRun T st ticks), b ≤ f := by
  intro ticks
  induction ticks with
  | nil =>
      intro st b hpend _ f hf
      cases hx : st.idleTimer with
      | none => simp [windowRun, hx, finishedTimes] at hf
      | some f0 =>
          simp only [windowRun, hx] at hf
          rcases windowTimerFire_finishedTimes T st f0 with heq | heq <;>
            rw [heq] at hf
          · simp only [List.mem_singleton] at hf
            subst hf
            exact hpend f hx
          · simp at hf
  | cons q rest ih =>
      intro st b hpend hb f hf
      obtain ⟨t, obs⟩ := q
      have hbt : b ≤ t + 2000 := hb t (by simp)
      have hbrest : ∀ u ∈ rest.map Prod.fst, b ≤ u + 2000 := by
        intro u hu
        exact hb u (by simp [hu])
      have hseg : ∀ st1 : WindowState α,
          (∀ x, st1.idleTimer = some x → b ≤ x) →
          f ∈ finishedTimes ((windowTick T st1 t obs).2 ++
            windowRun T (windowTick T st1 t obs).1 rest) → b ≤ f := by
        intro st1 hpend1 hmem
        rw [finishedTimes_append, windowTick_no_finished] at hmem
        simp only [List.nil_append] at hmem
        refine ih _ b ?_ hbrest f hmem
        intro x hx
        rcases windowTick_idleTimer T st1 t obs with heq | heq | heq <;>
          rw [heq] at hx
        · exact hpend1 x hx
        · rw [Option.some.inj hx.symm]
          exact hbt
        · exact absurd hx (by simp)
      cases hx : st.idleTimer with
      | none =>
          simp only [windowRun, hx] at hf
          exact hseg st (by intro x hx2; rw [hx] at hx2; exact absurd hx2 (by simp)) hf
      | some f0 =>
          simp only [windowRun, hx] at hf
          by_cases hle : f0 ≤ t
          · rw [if_pos hle] at hf
            rw [finishedTimes_append] at hf
            rcases List.mem_append.mp hf with hf1 | hf1
            · rcases windowTimerFire_finishedTimes T st f0 with heq | heq <;>
                rw [heq] at hf1
              · simp only [List.mem_singleton] at hf1
                subst hf1
                exact hpend f hx
              · simp at hf1
            · refine hseg _ ?_ hf1
              intro x hx2
              rw [windowTimerFire_idleTimer] at hx2
              exact absurd hx2 (by simp)
          · rw [if_neg hle] at hf
            exact hseg st hpend hf

/-- No `window-agent-finished` fires with a `window-activity` strictly
inside its own 2000 ms confirm window: a change tick cancels a pending
confirmation timer before it can fire. -/
theorem windowRun_no_change_in_window {α : Type} [DecidableEq α] (T : ℕ) :
    ∀ (ticks : List (ℕ × TickObs α)) (st : WindowState α),
      (ticks.map Prod.fst).Pairwise (· < ·) →
      ∀ f ∈ finishedTimes (windowRun T st ticks),
        ∀ a ∈ activityTimes (windowRun T st ticks),
          ¬ (f < a + 2000 ∧ a < f) := by
  intro ticks
  induction ticks with
  | nil =>
      intro st _ f hf a ha
      cases hx : st.idleTimer with
      | none => simp [windowRun, hx, activityTimes] at ha
      | some f0 =>
          simp only [windowRun, hx] at ha
          rw [windowTimerFire_no_activity] at ha
          simp at ha
  | cons q rest ih =>
      intro st hsort f hf a ha
      obtain ⟨t, obs⟩ := q
      simp only [List.map_cons] at hsort
      have hsort2 := (List.pairwise_cons.mp hsort).2
      have htrest := (List.pairwise_cons.mp hsort).1
      have hseg : ∀ st1 : WindowState α,
          f ∈ finishedTimes ((windowTick T st1 t obs).2 ++
            windowRun T (windowTick T st1 t obs).1 rest) →
          a ∈ activityTimes ((windowTick T st1 t obs).2 ++
            windowRun T (windowTick T st1 t obs).1 rest) →
          ¬ (f < a + 2000 ∧ a < f) := by
        intro st1 hf1 ha1
        rw [finishedTimes_append, windowTick_no_finished] at hf1
        simp only [List.nil_append] at hf1
        rw [activityTimes_append] at ha1
        rcases List.mem_append.mp ha1 with ha2 | ha2
        · rcases windowTick_activityTimes T st1 t obs with heq | ⟨heq, htim⟩
          · rw [heq] at ha2
            simp at ha2
          · rw [heq] at ha2
            simp only [List.mem_singleton] at ha2
            subst ha2
            have hflb : a + 2001 ≤ f := by
              refine windowRun_finished_lb T rest _ (a + 2001) ?_ ?_ f hf1
              · intro x hx
                rw [htim] at hx
                exact absurd hx (by simp)
              · intro u hu
                have : a < u := htrest u hu
                omega
            intro hcon
            omega
        · exact ih _ hsort2 f hf1 a ha2
      cases hx : st.idleTimer with
      | none =>
          simp only [windowRun, hx] at hf ha
          exact hseg st hf ha
      | some f0 =>
          simp only [windowRun, hx] at hf ha
          by_cases hle : f0 ≤ t
          · rw [if_pos hle] at hf ha
            rw [finishedTimes_append] at hf
            rw [activityTimes_append, windowTimerFire_no_activity] at ha
            simp only [List.nil_append] at ha
            rcases List.mem_append.mp hf with hf1 | hf1
            · have hff : f = f0 := by
                rcases windowTimerFire_finishedTimes T st f0 with heq | heq <;>
                  rw [heq] at hf1
                · simpa using hf1
                · simp at hf1
              subst hff
              have hta : t ≤ a := by
                rw [activityTimes_append] at ha
                rcases List.mem_append.mp ha with ha2 | ha2
                · rcases windowTick_activityTimes T _ t obs with heq | ⟨heq, _⟩ <;>
                    rw [heq] at ha2
                  · simp at ha2
                  · simp only [List.mem_singleton] at ha2
                    omega
                · have := windowRun_activity_lb T rest _ (t + 1)
                    (by intro u hu; exact htrest u hu) a ha2
                  omega
              intro hcon
              omega
            · exact hseg _ hf1 ha
          · rw [if_neg hle] at hf ha
            exact hseg st hf ha

/-- Confirm windows of successive `window-agent-finished` emissions are
disjoint: a later one fires at least 2000 ms after an earlier one. -/
theorem windowRun_finished_disjoint {α : Type} [DecidableEq α] (T : ℕ) :
    ∀ (ticks : List (ℕ × TickObs α)) (st : WindowState α),
      (ticks.map Prod.fst).Pairwise (· < ·) →
      (finishedTimes (windowRun T st ticks)).Pairwise
        (fun f1 f2 => f1 + 2000 ≤ f2) := by
  intro ticks
  induction ticks with
  | nil =>
      intro st _
      cases hx : st.idleTimer with
      | none => simp [windowRun, hx, finishedTimes]
      | some f0 =>
          simp only [windowRun, hx]
          rcases windowTimerFire_finishedTimes T st f0 with heq | heq <;> rw [heq]
          · simp
          · simp
  | cons q rest ih =>
      intro st hsort
      obtain ⟨t, obs⟩ := q
      simp only [List.map_cons] at hsort
      have hsort2 := (List.pairwise_cons.mp hsort).2
      have htrest := (List.pairwise_cons.mp hsort).1
      have hseg : ∀ st1 : WindowState α,
          (finishedTimes ((windowTick T st1 t obs).2 ++
            windowRun T (windowTick T st1 t obs).1 rest)).Pairwise
              (fun f1 f2 => f1 + 2000 ≤ f2) := by
        intro st1
        rw [finishedTimes_append, windowTick_no_finished]
        simp only [List.nil_append]
        exact ih _ hsort2
      cases hx : st.idleTimer with
      | none =>
          simp only [windowRun, hx]
          exact hseg st
      | some f0 =>
          simp only [windowRun, hx]
          by_cases hle : f0 ≤ t
          · rw [if_pos hle]
            rw [finishedTimes_append]
            rcases windowTimerFire_finishedTimes T st f0 with heq | heq <;> rw [heq]
            · rw [List.singleton_append, List.pairwise_cons]
              refine ⟨?_, hseg _⟩
              intro g hg
              rw [finishedTimes_append, windowTick_no_finished] at hg
              simp only [List.nil_append] at hg
              refine windowRun_finished_lb T rest _ (f0 + 2000) ?_ ?_ g hg
              · intro x hx2
                rcases windowTick_idleTimer T (windowTimerFire T st f0).1 t obs
                  with heq2 | heq2 | heq2 <;> rw [heq2] at hx2
                · rw [windowTimerFire_idleTimer] at hx2
                  exact absurd hx2 (by simp)
                · rw [Option.some.inj hx2.symm]
                  omega
                · exact absurd hx2 (by simp)
              · intro u hu
                have : t < u := htrest u hu
                omega
            · rw [List.nil_append]
              exact hseg _
          · rw [if_neg hle]
            exact hseg st

/-- C2: while a completion detector is watching — the filesystem agent
watcher or the visual window watcher — a change arriving while a confirm
timer is pending cancels that pending `finished` and restarts the
detection cycle (the change handler clears the timer and re-arms the
cycle), a `finished` is never emitted when a change occurred strictly
inside its own confirm window, and at most one `finished` is emitted per
confirm window: successive windows are disjoint. -/
theorem completionDetector_confirm_window (T : ℕ)
    (events : List (ℕ × ℕ)) (st : WindowState ℕ)
    (ticks : List (ℕ × TickObs ℕ))
    (hev : (events.map Prod.fst).Pairwise (· < ·))
    (htk : (ticks.map Prod.fst).Pairwise (· < ·)) :
    (∀ (st1 : AgentState ℕ) (t : ℕ) (p : ℕ),
        (agentOnChange T st1 t p).pendingAt = some (t + T)) ∧
    (∀ e ∈ agentRun T (agentInit ℕ) events,
        ∃ t ∈ events.map Prod.fst, e.time = t + T ∧
          ∀ u ∈ events.map Prod.fst, ¬ (t < u ∧ u < e.time)) ∧
    ((agentRun T (agentInit ℕ) events).map AgentFinished.time).Pairwise
        (fun a b => a + T ≤ b) ∧
    (∀ (st1 : WindowState ℕ) (t : ℕ) (v : ℕ), st1.enabled = true →
        some v ≠ st1.lastHash →
        (windowTick T st1 t (TickObs.captured (some v))).1.idleTimer = none) ∧
    (∀ f ∈ finishedTimes (windowRun T st ticks),
        ∀ a ∈ activityTimes (windowRun T st ticks),
          ¬ (f < a + 2000 ∧ a < f)) ∧
    (finishedTimes (windowRun T st ticks)).Pairwise
        (fun f1 f2 => f1 + 2000 ≤ f2) := by
  refine ⟨?_, ?_, ?_, ?_, ?_, ?_⟩
  · intro st1 t p
    rfl
  · intro e he
    have h := agentRun_sound T events (agentInit ℕ) [] hev (by simp)
      (by intro x hx; simp [agentInit] at hx) e he
    simpa using h
  · exact agentRun_disjoint T events (agentInit ℕ) hev
  · intro st1 t v hen hne
    have henF : ¬ st1.enabled = false := by
      rw [hen]
      simp
    have hch : ((some v : Option ℕ).isSome = true ∧
        (some v : Option ℕ) ≠ st1.lastHash) := ⟨rfl, hne⟩
    simp only [windowTick, if_neg henF, if_pos hch]
  · exact windowRun_no_change_in_window T ticks st htk
  · exact windowRun_finished_disjoint T ticks st htk

/-- Witness for C2 on concrete one-event runs. -/
theorem completionDetector_confirm_window_witness :
    ((([(0, 0)] : List (ℕ × ℕ)).map Prod.fst).Pairwise (· < ·) ∧
     (([(0, TickObs.captured (some 1))] : List (ℕ × TickObs ℕ)).map
        Prod.fst).Pairwise (· < ·)) ∧
    ((∀ (st1 : AgentState ℕ) (t : ℕ) (p : ℕ),
        (agentOnChange 3000 st1 t p).pendingAt = some (t + 3000)) ∧
     (∀ e ∈ agentRun 3000 (agentInit ℕ) [(0, 0)],
        ∃ t ∈ ([(0, 0)] : List (ℕ × ℕ)).map Prod.fst, e.time = t + 3000 ∧
          ∀ u ∈ ([(0, 0)] : List (ℕ × ℕ)).map Prod.fst,
            ¬ (t < u ∧ u < e.time)) ∧
     ((agentRun 3000 (agentInit ℕ) [(0, 0)]).map AgentFinished.time).Pairwise
        (fun a b => a + 3000 ≤ b) ∧
     (∀ (st1 : WindowState ℕ) (t : ℕ) (v : ℕ), st1.enabled = true →
        some v ≠ st1.lastHash →
        (windowTick 3000 st1 t (TickObs.captured (some v))).1.idleTimer
          = none) ∧
     (∀ f ∈ finishedTimes (windowRun 3000 (windowInit ℕ (some 0) 0)
          [(0, TickObs.captured (some 1))]),
        ∀ a ∈ activityTimes (windowRun 3000 (windowInit ℕ (some 0) 0)
          [(0, TickObs.captured (some 1))]),
          ¬ (f < a + 2000 ∧ a < f)) ∧
     (finishedTimes (windowRun 3000 (windowInit ℕ (some 0) 0)
          [(0, TickObs.captured (some 1))])).Pairwise
        (fun f1 f2 => f1 + 2000 ≤ f2)) :=
  ⟨⟨by decide, by decide⟩,
   completionDetector_confirm_window 3000 [(0, 0)] (windowInit ℕ (some 0) 0)
     [(0, TickObs.captured (some 1))] (by decide) (by decide)⟩

/-- C3 fails on the code as stated: the filesystem agent watcher has no
confirm stage at all (a single `setTimeout` of `idleThreshold` ms), so
with `idleThreshold = 3000` and changes at t = 0, 1000 and 1800 ms it
emits its one `agent-finished` at t = 4800 ms, not 6800 ms. -/
theorem completionDetector_scenario_counterexample :
    agentRun 3000 (agentInit ℕ) [(0, 0), (1000, 1), (1800, 2)]
      = [⟨4800, [0, 1, 2]⟩] ∧ (4800 : ℕ) ≠ 6800 := by
  decide

/-- C3 amended: with idle threshold 3000 ms and changes at t = 0, 1000 and
1800 ms followed by silence, the filesystem agent watcher (single idle
timer, no confirm delay) emits `agent-finished` exactly once, at
t = 4800 ms = last change + idle threshold, with `changedFiles` carrying
all three change records; the visual window watcher (idle threshold
3000 ms plus the hard-coded 2000 ms confirm timer), seeing fingerprint
changes at those tick times and an unchanged recapture at t = 4800 ms,
emits `window-agent-finished` exactly once, at t = 6800 ms with idle time
5000 ms — and its payload carries no record of the changes. -/
theorem completionDetector_scenario_amended :
    agentRun 3000 (agentInit ℕ) [(0, 0), (1000, 1), (1800, 2)]
      = [⟨4800, [0, 1, 2]⟩] ∧
    windowRun 3000 (windowInit ℕ (some 0) 0)
        [(0, TickObs.captured (some 1)), (1000, TickObs.captured (some 2)),
         (1800, TickObs.captured (some 3)), (4800, TickObs.captured (some 3))]
      = [WindowEvent.activity 0, WindowEvent.activity 1000,
         WindowEvent.activity 1800, WindowEvent.finished 6800 5000] := by
  decide

/-!
### Native wake word and transcription sessions

`startNativeWakeWordListening` / `stopNativeWakeWordListening` (main.js
lines 676-836) and `startNativeLeopardRecording` /
`stopNativeLeopardRecording` (lines 846-974).  The module-level mutable
variables (`porcupineListening`, `porcupineHandle`, `audioInputStream`,
`leopardHandle`, `leopardAccessKey`, `leopardRecording`) become an
explicit state record; `openStreams` counts the sox capture streams
opened by `record.record(...)` and not yet stopped.  External conditions
(module availability, keyword table and file checks, constructor or
capture throws) are environment flags; `accessKey`/`keyword` parameters
are elided except for the access key that drives the lazy Leopard
re-initialization.  Error strings follow the source, with the dynamic
interpolation and thrown `e.message` texts abridged to fixed strings. -/

/-- The `{ success, error?, message? }` objects these functions return
(further payload fields — sampleRate, frameLength, transcript, words —
are elided). -/
structure JsResult where
  success : Bool
  error : Option String
  message : Option String
  deriving DecidableEq

def okResult : JsResult := ⟨true, none, none⟩

def errResult (e : String) : JsResult := ⟨false, some e, none⟩

/-- The chunk list a recording session has collected (`audioChunks`). -/
structure RecordingSession where
  chunks : List (List ℤ)
  deriving DecidableEq

/-- The module-level audio state. -/
structure AudioState where
  porcupineListening : Bool
  porcupineHandle : Bool
  audioInputStream : Bool
  leopardHandle : Bool
  leopardAccessKey : Option String
  leopardRecording : Option RecordingSession
  openStreams : ℕ
  deriving DecidableEq

/-- External conditions of a wake-word start. -/
structure WakeEnv where
  recordAvailable : Bool
  porcupineAvailable : Bool
  keywordKnown : Bool
  keywordFileExists : Bool
  modelFileExists : Bool
  porcupineInitThrows : Bool
  recordStartThrows : Bool
  deriving DecidableEq

/-- External conditions of a transcription start. -/
structure LeopardEnv where
  recordAvailable : Bool
  leopardAvailable : Bool
  leopardInitThrows : Bool
  recordStartThrows : Bool
  deriving DecidableEq

/-- `stopNativeWakeWordListening` (lines 811-836): clear the listening
flag, stop the capture stream if open, release the engine handle if held;
idempotent and always `{ success: true }`. -/
def stopNativeWakeWordListening (st : AudioState) : JsResult × AudioState :=
  let st1 := { st with porcupineListening := false }
  let st2 :=
    if st1.audioInputStream = true then
      { st1 with audioInputStream := false, openStreams := st1.openStreams - 1 }
    else st1
  let st3 :=
    if st2.porcupineHandle = true then { st2 with porcupineHandle := false }
    else st2
  (okResult, st3)

/-- `startNativeWakeWordListening` (lines 676-809).  Checks, in order:
module availability; the `porcupineListening` early return (success with a
message, no state change); then inside `try`: stop leftovers, keyword
lookup, keyword/model file existence, `new Porcupine(...)`,
`record.record(...)`, and finally the listening flag.  A throw runs the
`catch`: stop again and return the failure.  Note: the function never
inspects `leopardRecording`. -/
def startNativeWakeWordListening (env : WakeEnv) (st : AudioState) :
    JsResult × AudioState :=
  if env.recordAvailable = false ∨ env.porcupineAvailable = false then
    (errResult "Audio recording or Porcupine not available", st)
  else if st.porcupineListening = true then
    (⟨true, none, some "Already listening"⟩, st)
  else
    let st1 := (stopNativeWakeWordListening st).2
    if env.keywordKnown = false then (errResult "Unknown keyword", st1)
    else if env.keywordFileExists = false then
      (errResult "Keyword file not found", st1)
    else if env.modelFileExists = false then
      (errResult "Model file not found", st1)
    else if env.porcupineInitThrows = true then
      (errResult "Failed to initialize Porcupine",
       (stopNativeWakeWordListening st1).2)
    else
      let st2 := { st1 with porcupineHandle := true }
      if env.recordStartThrows = true then
        (errResult "Failed to start recording",
         (stopNativeWakeWordListening st2).2)
      else
        (okResult,
         { st2 with
            audioInputStream := true
            openStreams := st2.openStreams + 1
            porcupineListening := true })

/-- `startNativeLeopardRecording` (lines 846-922).  Checks module
availability; lazily (re)initializes the Leopard handle when absent or
when the access key changed (`new Leopard(...)` may throw — caught and
returned as failure); then opens a fresh sox capture stream and installs a
new empty chunk collector as `leopardRecording`.  Note: the function never
inspects `porcupineListening` and never checks whether `leopardRecording`
is already open — an existing session is silently replaced without being
stopped. -/
def startNativeLeopardRecording (env : LeopardEnv) (accessKey : String)
    (st : AudioState) : JsResult × AudioState :=
  if env.recordAvailable = false ∨ env.leopardAvailable = false then
    (errResult "Native recording or Leopard not available", st)
  else if (st.leopardHandle = false ∨ st.leopardAccessKey ≠ some accessKey) ∧
      env.leopardInitThrows = true then
    (errResult "Failed to initialize Leopard", { st with leopardHandle := false })
  else
    let st1 :=
      if st.leopardHandle = false ∨ st.leopardAccessKey ≠ some accessKey then
        { st with leopardHandle := true, leopardAccessKey := some accessKey }
      else st
    if env.recordStartThrows = true then
      (errResult "Failed to start recording", st1)
    else
      (okResult,
       { st1 with
          leopardRecording := some ⟨[]⟩
          openStreams := st1.openStreams + 1 })

/-- `stopNativeLeopardRecording` (lines 924-974): fail when no session is
open; otherwise stop the stream and release the session, fail with
`No audio recorded` when no chunk was collected, and only otherwise call
`leopardHandle.process` on the concatenated samples (a null handle makes
that call throw into the `catch`).  The third component records whether
the external engine was invoked. -/
def stopNativeLeopardRecording (st : AudioState) :
    JsResult × AudioState × Bool :=
  match st.leopardRecording with
  | none => (errResult "No active recording", st, false)
  | some session =>
      let st1 :=
        { st with
            leopardRecording := none
            openStreams := st.openStreams - 1 }
      if session.chunks = [] then
        (errResult "No audio recorded", st1, false)
      else if st1.leopardHandle = true then
        (okResult, st1, true)
      else
        (errResult "Leopard process failed", st1, false)

/-- C8: stopping a transcription session that collected zero audio chunks
returns the `No audio recorded` error, never invokes
`leopardHandle.process`, and still releases the session. -/
theorem stopLeopard_noAudio (st : AudioState)
    (h : st.leopardRecording = some ⟨[]⟩) :
    (stopNativeLeopardRecording st).1 = errResult "No audio recorded" ∧
    (stopNativeLeopardRecording st).2.2 = false ∧
    (stopNativeLeopardRecording st).2.1.leopardRecording = none := by
  simp [stopNativeLeopardRecording, h]

/-- Witness for C8 on a concrete zero-chunk session. -/
theorem stopLeopard_noAudio_witness :
    (⟨false, false, false, true, some "k", some ⟨[]⟩, 1⟩ :
        AudioState).leopardRecording = some ⟨[]⟩ ∧
    ((stopNativeLeopardRecording
        ⟨false, false, false, true, some "k", some ⟨[]⟩, 1⟩).1
      = errResult "No audio recorded" ∧
     (stopNativeLeopardRecording
        ⟨false, false, false, true, some "k", some ⟨[]⟩, 1⟩).2.2 = false ∧
     (stopNativeLeopardRecording
        ⟨false, false, false, true, some "k", some ⟨[]⟩, 1⟩).2.1.leopardRecording
      = none) :=
  ⟨rfl, stopLeopard_noAudio ⟨false, false, false, true, some "k", some ⟨[]⟩, 1⟩ rfl⟩

/-- C5 fails as stated: a duplicate `startNativeWakeWordListening` returns
`{ success: true, message: 'Already listening' }` — a success, not an
`AlreadyListening` error — and `startNativeLeopardRecording` has no
duplicate-start guard at all: called while a session is already open it
succeeds, opens a second capture stream and silently replaces the session
without stopping the first. -/
theorem duplicateStart_counterexample :
    (startNativeWakeWordListening ⟨true, true, true, true, true, false, false⟩
        ⟨true, true, true, false, none, none, 1⟩).1
      = ⟨true, none, some "Already listening"⟩ ∧
    (startNativeLeopardRecording ⟨true, true, false, false⟩ "k"
        ⟨false, false, false, true, some "k", some ⟨[[1]]⟩, 1⟩).1.success
      = true ∧
    (startNativeLeopardRecording ⟨true, true, false, false⟩ "k"
        ⟨false, false, false, true, some "k", some ⟨[[1]]⟩, 1⟩).2.leopardRecording
      = some ⟨[]⟩ ∧
    (startNativeLeopardRecording ⟨true, true, false, false⟩ "k"
        ⟨false, false, false, true, some "k", some ⟨[[1]]⟩, 1⟩).2.openStreams
      = 2 := by
  decide

/-- C5 amended: a duplicate wake-word start is rejected without opening a
second stream, but by an early `{ success: true, message: 'Already
listening' }` return that leaves the state unchanged — not an error; a
duplicate transcription start is not rejected at all: with the modules
available and nothing throwing, it succeeds, opens a second capture
stream, and replaces the open session with a fresh empty one, never
stopping the first. -/
theorem duplicateStart_amended :
    (∀ (env : WakeEnv) (st : AudioState),
       env.recordAvailable = true → env.porcupineAvailable = true →
       st.porcupineListening = true →
       startNativeWakeWordListening env st
         = (⟨true, none, some "Already listening"⟩, st)) ∧
    (∀ (k : String) (st : AudioState) (s : RecordingSession),
       st.leopardRecording = some s →
       (startNativeLeopardRecording ⟨true, true, false, false⟩ k st).1.success
         = true ∧
       (startNativeLeopardRecording ⟨true, true, false, false⟩ k
          st).2.leopardRecording = some ⟨[]⟩ ∧
       (startNativeLeopardRecording ⟨true, true, false, false⟩ k
          st).2.openStreams = st.openStreams + 1) := by
  constructor
  · intro env st h1 h2 h3
    have hc : ¬ (env.recordAvailable = false ∨ env.porcupineAvailable = false) := by
      simp [h1, h2]
    simp only [startNativeWakeWordListening, if_neg hc]
    rw [if_pos h3]
  · intro k st s hs
    have h1 : ¬ ((⟨true, true, false, false⟩ : LeopardEnv).recordAvailable = false ∨
        (⟨true, true, false, false⟩ : LeopardEnv).leopardAvailable = false) := by
      simp
    have h2 : ¬ ((st.leopardHandle = false ∨ st.leopardAccessKey ≠ some k) ∧
        (⟨true, true, false, false⟩ : LeopardEnv).leopardInitThrows = true) := by
      simp
    have h3 : ¬ ((⟨true, true, false, false⟩ : LeopardEnv).recordStartThrows
        = true) := by
      simp
    by_cases hcond : st.leopardHandle = false ∨ st.leopardAccessKey ≠ some k
    · simp only [startNativeLeopardRecording, if_neg h1, if_neg h2,
        if_pos hcond, if_neg h3]
      simp [okResult]
    · simp only [startNativeLeopardRecording, if_neg h1, if_neg h2,
        if_neg hcond, if_neg h3]
      simp [okResult]

/-- Witness for C5's amended statement at concrete states. -/
theorem duplicateStart_amended_witness :
    (startNativeWakeWordListening ⟨true, true, true, true, true, false, false⟩
        ⟨true, true, true, false, none, none, 1⟩
      = (⟨true, none, some "Already listening"⟩,
         ⟨true, true, true, false, none, none, 1⟩)) ∧
    ((startNativeLeopardRecording ⟨true, true, false, false⟩ "k"
        ⟨false, false, false, true, some "k", some ⟨[[1]]⟩, 1⟩).1.success
      = true ∧
     (startNativeLeopardRecording ⟨true, true, false, false⟩ "k"
        ⟨false, false, false, true, some "k", some ⟨[[1]]⟩, 1⟩).2.leopardRecording
      = some ⟨[]⟩ ∧
     (startNativeLeopardRecording ⟨true, true, false, false⟩ "k"
        ⟨false, false, false, true, some "k", some ⟨[[1]]⟩, 1⟩).2.openStreams
      = (⟨false, false, false, true, some "k", some ⟨[[1]]⟩, 1⟩ :
          AudioState).openStreams + 1) :=
  ⟨duplicateStart_amended.1 ⟨true, true, true, true, true, false, false⟩
     ⟨true, true, true, false, none, none, 1⟩ rfl rfl rfl,
   duplicateStart_amended.2 "k"
     ⟨false, false, false, true, some "k", some ⟨[[1]]⟩, 1⟩ ⟨[[1]]⟩ rfl⟩

/-- C4 fails as stated: there is no microphone conflict check in either
direction — starting a transcription recording while the wake-word
detector is listening succeeds and opens a second capture stream on the
device, and starting wake-word listening while a recording session is
open does the same. -/
theorem micConflict_counterexample :
    (startNativeLeopardRecording ⟨true, true, false, false⟩ "k"
        ⟨true, true, true, false, none, none, 1⟩).1.success = true ∧
    (startNativeLeopardRecording ⟨true, true, false, false⟩ "k"
        ⟨true, true, true, false, none, none, 1⟩).2.openStreams = 2 ∧
    (startNativeLeopardRecording ⟨true, true, false, false⟩ "k"
        ⟨true, true, true, false, none, none, 1⟩).2.porcupineListening
      = true ∧
    (startNativeWakeWordListening ⟨true, true, true, true, true, false, false⟩
        ⟨false, false, false, true, some "k", some ⟨[[1]]⟩, 1⟩).1.success
      = true ∧
    (startNativeWakeWordListening ⟨true, true, true, true, true, false, false⟩
        ⟨false, false, false, true, some "k", some ⟨[[1]]⟩, 1⟩).2.openStreams
      = 2 ∧
    (startNativeWakeWordListening ⟨true, true, true, true, true, false, false⟩
        ⟨false, false, false, true, some "k", some ⟨[[1]]⟩, 1⟩).2.leopardRecording
      = some ⟨[[1]]⟩ := by
  decide

/-- C4 amended: neither start performs a conflict check against the
other.  With the modules available and nothing throwing,
`startNativeLeopardRecording` called while the wake-word detector is
listening succeeds, leaves it listening and opens a second capture
stream; `startNativeWakeWordListening` called while a recording session
is open (and no wake-word resources are held) succeeds, leaves the
session in place and opens a second capture stream; neither path produces
a conflict error. -/
theorem micConflict_amended :
    (∀ (k : String) (st : AudioState), st.porcupineListening = true →
       (startNativeLeopardRecording ⟨true, true, false, false⟩ k st).1.success
         = true ∧
       (startNativeLeopardRecording ⟨true, true, false, false⟩ k
          st).2.porcupineListening = true ∧
       (startNativeLeopardRecording ⟨true, true, false, false⟩ k
          st).2.openStreams = st.openStreams + 1) ∧
    (∀ st : AudioState, st.leopardRecording.isSome = true →
       st.porcupineListening = false → st.audioInputStream = false →
       st.porcupineHandle = false →
       (startNativeWakeWordListening
          ⟨true, true, true, true, true, false, false⟩ st).1.success = true ∧
       (startNativeWakeWordListening
          ⟨true, true, true, true, true, false, false⟩ st).2.leopardRecording
         = st.leopardRecording ∧
       (startNativeWakeWordListening
          ⟨true, true, true, true, true, false, false⟩ st).2.openStreams
         = st.openStreams + 1) := by
  constructor
  · intro k st h
    have h1 : ¬ ((⟨true, true, false, false⟩ : LeopardEnv).recordAvailable = false ∨
        (⟨true, true, false, false⟩ : LeopardEnv).leopardAvailable = false) := by
      simp
    have h2 : ¬ ((st.leopardHandle = false ∨ st.leopardAccessKey ≠ some k) ∧
        (⟨true, true, false, false⟩ : LeopardEnv).leopardInitThrows = true) := by
      simp
    have h3 : ¬ ((⟨true, true, false, false⟩ : LeopardEnv).recordStartThrows
        = true) := by
      simp
    by_cases hcond : st.leopardHandle = false ∨ st.leopardAccessKey ≠ some k
    · simp only [startNativeLeopardRecording, if_neg h1, if_neg h2,
        if_pos hcond, if_neg h3]
      simp [okResult, h]
    · simp only [startNativeLeopardRecording, if_neg h1, if_neg h2,
        if_neg hcond, if_neg h3]
      simp [okResult, h]
  · intro st hrec hlisten hstream hhandle
    have e1 : ¬ ((⟨true, true, true, true, true, false, false⟩ :
        WakeEnv).recordAvailable = false ∨
        (⟨true, true, true, true, true, false, false⟩ :
          WakeEnv).porcupineAvailable = false) := by
      simp
    have e2 : ¬ (st.porcupineListening = true) := by
      simp [hlisten]
    have hstop : stopNativeWakeWordListening st
        = (okResult, { st with porcupineListening := false }) := by
      simp only [stopNativeWakeWordListening]
      rw [if_neg (by simp [hstream, hhandle]), if_neg (by simp [hstream, hhandle])]
    simp only [startNativeWakeWordListening, if_neg e1, if_neg e2, hstop]
    simp [okResult]

/-- Witness for C4's amended statement at concrete states. -/
theorem micConflict_amended_witness :
    ((startNativeLeopardRecording ⟨true, true, false, false⟩ "k"
        ⟨true, true, true, false, none, none, 1⟩).1.success = true ∧
     (startNativeLeopardRecording ⟨true, true, false, false⟩ "k"
        ⟨true, true, true, false, none, none, 1⟩).2.porcupineListening
       = true ∧
     (startNativeLeopardRecording ⟨true, true, false, false⟩ "k"
        ⟨true, true, true, false, none, none, 1⟩).2.openStreams
       = (⟨true, true, true, false, none, none, 1⟩ :
           AudioState).openStreams + 1) ∧
    ((startNativeWakeWordListening ⟨true, true, true, true, true, false, false⟩
        ⟨false, false, false, true, some "k", some ⟨[[1]]⟩, 1⟩).1.success
       = true ∧
     (startNativeWakeWordListening ⟨true, true, true, true, true, false, false⟩
        ⟨false, false, false, true, some "k", some ⟨[[1]]⟩, 1⟩).2.leopardRecording
       = (⟨false, false, false, true, some "k", some ⟨[[1]]⟩, 1⟩ :
           AudioState).leopardRecording ∧
     (startNativeWakeWordListening ⟨true, true, true, true, true, false, false⟩
        ⟨false, false, false, true, some "k", some ⟨[[1]]⟩, 1⟩).2.openStreams
       = (⟨false, false, false, true, some "k", some ⟨[[1]]⟩, 1⟩ :
           AudioState).openStreams + 1) :=
  ⟨micConflict_amended.1 "k" ⟨true, true, true, false, none, none, 1⟩ rfl,
   micConflict_amended.2 ⟨false, false, false, true, some "k", some ⟨[[1]]⟩, 1⟩
     rfl rfl rfl rfl⟩

/-!
### Availability IPC handlers

The `porcupine-available` handler (main.js lines 1647-1649) returns
`{ available: Porcupine !== null && portAudio !== null }` — but no
binding named `portAudio` is declared anywhere in the module (the
audio-capture module is bound to `record`, lines 33-40; `portAudio` is a
leftover of a removed naudiodon-based version), so evaluating the
identifier throws a `ReferenceError`.  By JS short-circuit evaluation of
`&&` this only happens when `Porcupine !== null` is true.  The parallel
`leopard-available` handler (lines 1679-1681) uses `!!Leopard &&
!!record` over declared bindings and never throws.
-/

/-- The module-scope bindings the availability handlers could read
(main.js lines 9-40); each Bool says whether loading succeeded, i.e. the
binding is non-null.  All other modeled state is irrelevant here and
elided. -/
structure ModuleScope where
  porcupineLoaded : Bool
  builtinKeywordLoaded : Bool
  leopardLoaded : Bool
  recordLoaded : Bool
  deriving DecidableEq

/-- Identifier lookup in the module scope: the declared bindings resolve
to their non-nullness; reading any other identifier throws a
`ReferenceError`. -/
def lookupGlobal (s : ModuleScope) : String → Except String Bool
  | "Porcupine" => .ok s.porcupineLoaded
  | "BuiltinKeyword" => .ok s.builtinKeywordLoaded
  | "Leopard" => .ok s.leopardLoaded
  | "record" => .ok s.recordLoaded
  | x => .error ("ReferenceError: " ++ x ++ " is not defined")

/-- The `porcupine-available` IPC handler body (line 1648):
`{ available: Porcupine !== null && portAudio !== null }`, with JS
short-circuit evaluation of `&&`. -/
def porcupineAvailableHandler (s : ModuleScope) : Except String Bool := do
  let p ← lookupGlobal s "Porcupine"
  if p = false then
    pure false
  else do
    let pa ← lookupGlobal s "portAudio"
    pure (p && pa)

/-- The `leopard-available` IPC handler body (line 1680):
`{ available: !!Leopard && !!record }`. -/
def leopardAvailableHandler (s : ModuleScope) : Except String Bool := do
  let l ← lookupGlobal s "Leopard"
  if l = false then
    pure false
  else do
    let r ← lookupGlobal s "record"
    pure (l && r)

/-- C9: the `porcupine-available` handler only returns
`{ available: false }` when the Porcupine engine module itself failed to
load; whenever Porcupine did load — in particular when only the
audio-capture module is missing, the very case the claim is about — it
instead throws `ReferenceError: portAudio is not defined` (surfacing as a
rejected IPC invocation), because `portAudio` is not a declared binding.
The parallel `leopard-available` handler returns the structured result in
the same situations. -/
theorem porcupineAvailable_referenceError :
    porcupineAvailableHandler ⟨true, true, false, false⟩
      = .error "ReferenceError: portAudio is not defined" ∧
    porcupineAvailableHandler ⟨true, true, true, true⟩
      = .error "ReferenceError: portAudio is not defined" ∧
    porcupineAvailableHandler ⟨false, false, false, false⟩ = .ok false ∧
    leopardAvailableHandler ⟨true, true, true, false⟩ = .ok false ∧
    leopardAvailableHandler ⟨false, false, false, false⟩ = .ok false ∧
    leopardAvailableHandler ⟨true, true, true, true⟩ = .ok true :=
  ⟨rfl, rfl, rfl, rfl, rfl, rfl⟩

/-- Witness for C7 at a concrete frame length and chunk. -/
theorem frameBuffer_frames_exact_witness :
    0 < 1 ∧
    ((∀ f ∈ (pushChunk 1 [] [0, 0, 0]).1, f.length = 1) ∧
     (pushChunk 1 [] [0, 0, 0]).2.length < 1 * 2 ∧
     (sliceFrames (1 * 2) ([] ++ [0, 0, 0])).1.flatten ++
        (pushChunk 1 [] [0, 0, 0]).2 = [] ++ [0, 0, 0]) :=
  ⟨by decide, frameBuffer_frames_exact 1 (by decide) [] [0, 0, 0]⟩

end Cortona
